import Mathlib

/-!
Verification development for the MeetingScribe speaker-assignment validation
and segmentation engine (`deepgram_service.py`, class `DeepgramDiarizationService`).

The engine is embedded shallowly:

* Python floats are modelled by `ℚ` (every constant appearing in the source
  and in the scenarios below is an exact decimal, and every comparison made by
  the engine on the concrete inputs studied here has a nonzero margin or
  compares two syntactically identical computations, so `ℚ` and IEEE doubles
  agree on all branches taken);
* Python dicts (which preserve insertion order) are modelled by association
  lists `List (Nat × V)` with an `upsert` that updates in place or appends;
* `self.last_speaker_id` (an int or `None`) is modelled by `Option Nat`;
  the idiom `self.last_speaker_id or x`, in which both `None` and the valid
  speaker id `0` are falsy, is modelled by `last_or`;
* a transcript-entry dict that lacks the `'confidence'` key is modelled by a
  `confidence : Option ℚ` field holding `none`;
* the wall-clock timestamp `datetime.now().strftime(...)` is an external
  input and is passed in as an opaque `String` parameter.

Mutable state of the service object is the `ServiceState` structure; each
handler is a function from state (plus inputs) to state plus the emitted
transcript entries and speaker-change notifications (the callbacks).
-/

/-- One word object of a transcription result, as consumed by
`_process_words_with_speakers` (attributes `word`, `speaker`, `confidence`,
`start`, `end`; `speaker` and `confidence` may be absent). -/
structure RawWord where
  word : String
  speaker : Option Nat
  confidence : Option ℚ
  start_time : ℚ
  end_time : ℚ
deriving DecidableEq, Repr, Inhabited

/-- The per-word dict built by `_process_words_with_speakers`
(keys `text`, `speaker_id`, `confidence`, `start_time`, `end_time`,
`duration`). -/
structure WordInfo where
  text : String
  speaker_id : Nat
  confidence : ℚ
  start_time : ℚ
  end_time : ℚ
  duration : ℚ
deriving DecidableEq, Repr, Inhabited

/-- A validated word: the word dict after `_validate_speaker_assignments`
replaced `speaker_id` and added `validation_confidence`. -/
structure VWord where
  text : String
  speaker_id : Nat
  start_time : ℚ
  end_time : ℚ
  validation_confidence : ℚ
deriving DecidableEq, Repr, Inhabited

/-- A segment dict as built by `_group_into_segments`. -/
structure Segment where
  speaker_id : Nat
  words : List String
  start_time : ℚ
  end_time : ℚ
  confidence : ℚ
deriving DecidableEq, Repr, Inhabited

/-- A per-speaker timing profile (`self.speaker_timings[sid]`):
`{'avg_duration': ..., 'segment_count': ...}`. -/
structure TimingProfile where
  avg_duration : ℚ
  segment_count : Nat
deriving DecidableEq, Repr, Inhabited

/-- A transcript entry; `confidence` is `none` exactly when the source dict
has no `'confidence'` key (the `_process_single_speaker_segment` path). -/
structure TranscriptEntry where
  time : String
  speaker : String
  speaker_id : Nat
  text : String
  confidence : Option ℚ
  is_final : Bool
deriving DecidableEq, Repr, Inhabited

/-- Payload of the `on_speaker_change` callback. -/
structure SpeakerChange where
  speaker_id : Nat
  speaker_name : String
deriving DecidableEq, Repr, Inhabited

/-- The mutable per-session state of `DeepgramDiarizationService`. -/
structure ServiceState where
  speakers : List (Nat × String)
  transcript : List TranscriptEntry
  last_speaker_id : Option Nat
  speaker_history : List Nat
  speaker_timings : List (Nat × TimingProfile)
  speaker_consistency_scores : List (Nat × ℚ)
deriving DecidableEq, Repr, Inhabited

/-- Fresh session (the `__init__` / `clear_session` state). -/
def initial_state : ServiceState := ⟨[], [], none, [], [], []⟩

/-- `self.min_segment_duration = 0.3`. -/
def min_segment_duration : ℚ := 0.3

/-- `self.max_rapid_switch_time = 1.0`. -/
def max_rapid_switch_time : ℚ := 1.0

/-- `self.min_words_for_speaker_change = 2`. -/
def min_words_for_speaker_change : Nat := 2

/-- `self.history_size = 10`. -/
def history_size : Nat := 10

/-- Python dict assignment `d[k] = v` on an insertion-ordered dict:
update the existing entry in place, or append a new one. -/
def upsert {V : Type} (l : List (Nat × V)) (k : Nat) (v : V) : List (Nat × V) :=
  match l with
  | [] => [(k, v)]
  | (k', v') :: rest => if k' = k then (k, v) :: rest else (k', v') :: upsert rest k v

/-- The Python idiom `last or d` where `last` is `self.last_speaker_id`:
both `None` and the integer `0` are falsy and yield `d`. -/
def last_or (last : Option Nat) (d : Nat) : Nat :=
  match last with
  | none => d
  | some 0 => d
  | some (k + 1) => k + 1

/-- `_get_speaker_consistency_score`: stored score, or the neutral 0.5 for a
speaker with no stored score. -/
def get_speaker_consistency_score (scores : List (Nat × ℚ)) (speaker_id : Nat) : ℚ :=
  match List.lookup speaker_id scores with
  | none => 0.5
  | some c => c

/-- The loop of `_update_speaker_history` counting interior window positions
(index `1 .. len-2`) whose value equals its left or right neighbour. -/
def count_stable : List Nat → Nat
  | a :: b :: c :: rest => (if b = a ∨ b = c then 1 else 0) + count_stable (b :: c :: rest)
  | _ => 0

/-- The window after `self.speaker_history.append(speaker_id)` followed by
the FIFO eviction `self.speaker_history.pop(0)` when `history_size` is
exceeded. -/
def bounded_window (history : List Nat) (speaker_id : Nat) : List Nat :=
  if history_size < (history ++ [speaker_id]).length then
    (history ++ [speaker_id]).drop 1
  else
    history ++ [speaker_id]

/-- `_update_speaker_history`: append the validated id to the bounded window
(FIFO eviction past `history_size`), and once the window holds at least 3
entries store the window-wide stability ratio under the id just recorded. -/
def update_speaker_history (history : List Nat) (scores : List (Nat × ℚ))
    (speaker_id : Nat) : List Nat × List (Nat × ℚ) :=
  if 3 ≤ (bounded_window history speaker_id).length then
    (bounded_window history speaker_id,
      upsert scores speaker_id
        ((count_stable (bounded_window history speaker_id) : ℚ) /
          (((bounded_window history speaker_id).length : ℚ) - 2)))
  else
    (bounded_window history speaker_id, scores)

/-- The context slice `word_data[max(0, i-3) : min(len(word_data), i+4)]` of
`_validate_speaker_assignments`. -/
def context_window (word_data : List WordInfo) (i : Nat) : List WordInfo :=
  (word_data.take (min (i + 4) word_data.length)).drop (i - 3)

/-- One iteration of the `speaker_votes` accumulation: bump the count and the
confidence sum of `sid`, or append a fresh `{'count': 1, 'confidence': conf}`
entry (insertion order preserved, as for a Python dict). -/
def add_vote (votes : List (Nat × Nat × ℚ)) (sid : Nat) (conf : ℚ) :
    List (Nat × Nat × ℚ) :=
  match votes with
  | [] => [(sid, 1, conf)]
  | (s, c, q) :: rest =>
    if s = sid then (s, c + 1, q + conf) :: rest else (s, c, q) :: add_vote rest sid conf

/-- The `speaker_votes` dict of `_validate_speaker_assignments` for a context
window, keyed in first-encountered order. -/
def speaker_votes (ctx : List WordInfo) : List (Nat × Nat × ℚ) :=
  ctx.foldl (fun acc w => add_vote acc w.speaker_id w.confidence) []

/-- The score `count_score * 0.4 + conf_score * 0.3 + history_score * 0.3`
computed for one candidate speaker in `_validate_speaker_assignments`. -/
def combined_score (scores : List (Nat × ℚ)) (ctx_len : Nat) (sid : Nat)
    (count : Nat) (conf_sum : ℚ) : ℚ :=
  ((count : ℚ) / (ctx_len : ℚ)) * 0.4
    + (if 0 < count then conf_sum / (count : ℚ) else 0) * 0.3
    + get_speaker_consistency_score scores sid * 0.3

/-- The candidate-selection loop of `_validate_speaker_assignments`:
starting from `(original_speaker, 0)`, replace the best pair whenever a
candidate scores strictly higher (so ties keep the earlier candidate). -/
def select_best_speaker (scores : List (Nat × ℚ)) (ctx_len : Nat)
    (init : Nat × ℚ) (votes : List (Nat × Nat × ℚ)) : Nat × ℚ :=
  votes.foldl
    (fun best v =>
      if combined_score scores ctx_len v.1 v.2.1 v.2.2 > best.2 then
        (v.1, combined_score scores ctx_len v.1 v.2.1 v.2.2)
      else best)
    init

/-- The vote of `_validate_speaker_assignments` for the word at index `i`:
best speaker and best combined score over the context window, seeded with
the word's own raw speaker id and score 0. -/
def vote_for_word (scores : List (Nat × ℚ)) (word_data : List WordInfo) (i : Nat) :
    Nat × ℚ :=
  let ctx := context_window word_data i
  select_best_speaker scores ctx.length ((word_data.getD i default).speaker_id, 0)
    (speaker_votes ctx)

/-- `_would_create_short_segment`: counting the word itself plus the maximal
runs of `speaker_id` (raw labels) immediately before and after `word_index`,
is the run shorter than `min_words_for_speaker_change`? -/
def would_create_short_segment (speaker_id : Nat) (word_index : Nat)
    (word_data : List WordInfo) : Bool :=
  let back := ((word_data.take word_index).reverse.takeWhile
    (fun w => w.speaker_id == speaker_id)).length
  let fwd := ((word_data.drop (word_index + 1)).takeWhile
    (fun w => w.speaker_id == speaker_id)).length
  decide (1 + back + fwd < min_words_for_speaker_change)

/-- One iteration of the counting loop of `_find_contextual_speaker`. -/
def add_count (counts : List (Nat × Nat)) (sid : Nat) : List (Nat × Nat) :=
  match counts with
  | [] => [(sid, 1)]
  | (s, c) :: rest => if s = sid then (s, c + 1) :: rest else (s, c) :: add_count rest sid

/-- The `speaker_counts` dict of `_find_contextual_speaker`: raw speaker ids
of the indices `lo .. hi-1` other than `word_index`, counted in
first-encountered order. -/
def speaker_counts (word_data : List WordInfo) (word_index lo hi : Nat) :
    List (Nat × Nat) :=
  ((List.range' lo (hi - lo)).filter (fun j => j != word_index)).foldl
    (fun acc j => add_count acc (word_data.getD j default).speaker_id) []

/-- Python `max(speaker_counts, key=speaker_counts.get)`: the first key, in
insertion order, with the maximal count (`max` only replaces on strictly
greater); `none` on an empty dict. -/
def max_by_count (counts : List (Nat × Nat)) : Option Nat :=
  match counts with
  | [] => none
  | c :: rest => some ((rest.foldl (fun b x => if x.2 > b.2 then x else b) c).1)

/-- `_find_contextual_speaker`: majority raw id in the window
`[max(0, i-2), min(len, i+3))` excluding index `i` itself; on an empty
context, `self.last_speaker_id or 0`. -/
def find_contextual_speaker (word_index : Nat) (word_data : List WordInfo)
    (last : Option Nat) : Nat :=
  match max_by_count (speaker_counts word_data word_index (word_index - 2)
      (min (word_index + 2 + 1) word_data.length)) with
  | some s => s
  | none => last_or last 0

/-- `_apply_temporal_validation`: the rapid-switch guard (only for
`word_index > 0`), then the timing-prior guard, else the proposed speaker. -/
def apply_temporal_validation (last : Option Nat)
    (timings : List (Nat × TimingProfile)) (proposed_speaker : Nat)
    (word_index : Nat) (word_data : List WordInfo) : Nat :=
  let w := word_data.getD word_index default
  if 0 < word_index ∧
      w.start_time - (word_data.getD (word_index - 1) default).end_time
        < max_rapid_switch_time ∧
      w.duration < min_segment_duration ∧
      would_create_short_segment proposed_speaker word_index word_data = true then
    last_or last proposed_speaker
  else
    match List.lookup proposed_speaker timings with
    | some timing =>
      if w.duration < timing.avg_duration * 0.1 then
        find_contextual_speaker word_index word_data last
      else proposed_speaker
    | none => proposed_speaker

/-- One iteration of the main loop of `_validate_speaker_assignments`:
vote, temporal validation, emit the validated word, update the history. -/
def validate_step (last : Option Nat) (timings : List (Nat × TimingProfile))
    (word_data : List WordInfo)
    (acc : List VWord × List Nat × List (Nat × ℚ)) (i : Nat) :
    List VWord × List Nat × List (Nat × ℚ) :=
  let w := word_data.getD i default
  let best := vote_for_word acc.2.2 word_data i
  let validated := apply_temporal_validation last timings best.1 i word_data
  let hs := update_speaker_history acc.2.1 acc.2.2 validated
  (acc.1 ++ [⟨w.text, validated, w.start_time, w.end_time, best.2⟩], hs.1, hs.2)

/-- `_validate_speaker_assignments` up to (but not including) the final
grouping: the validated words together with the updated
`speaker_history` and `speaker_consistency_scores`. -/
def validate_speaker_assignments (last : Option Nat)
    (timings : List (Nat × TimingProfile)) (history : List Nat)
    (scores : List (Nat × ℚ)) (word_data : List WordInfo) :
    List VWord × List Nat × List (Nat × ℚ) :=
  (List.range word_data.length).foldl (validate_step last timings word_data)
    ([], history, scores)

/-- The folding loop of `_group_into_segments` over the remaining words,
given the current open segment. -/
def group_loop : List VWord → Segment → List Segment
  | [], cur => [cur]
  | v :: vs, cur =>
    if v.speaker_id = cur.speaker_id then
      group_loop vs { cur with
        words := cur.words ++ [v.text],
        end_time := v.end_time,
        confidence := max cur.confidence v.validation_confidence }
    else
      cur :: group_loop vs ⟨v.speaker_id, [v.text], v.start_time, v.end_time,
        v.validation_confidence⟩

/-- `_group_into_segments`: maximal runs of equal validated `speaker_id`. -/
def group_into_segments : List VWord → List Segment
  | [] => []
  | v :: vs => group_loop vs ⟨v.speaker_id, [v.text], v.start_time, v.end_time,
      v.validation_confidence⟩

/-- The speaker-registry idiom shared by `_process_validated_segments` and
`_process_single_speaker_segment`: on first sight of a raw id, append it with
display name `"Speaker " + str(len(self.speakers) + 1)`; afterwards return
the stored name unchanged. -/
def resolve_name (speakers : List (Nat × String)) (speaker_id : Nat) :
    String × List (Nat × String) :=
  match List.lookup speaker_id speakers with
  | some name => (name, speakers)
  | none =>
    ("Speaker " ++ toString (speakers.length + 1),
      speakers ++ [(speaker_id, "Speaker " ++ toString (speakers.length + 1))])

/-- The registry after a sequence of resolutions (either processing path). -/
def registry_after (ids : List Nat) : List (Nat × String) :=
  ids.foldl (fun reg sid => (resolve_name reg sid).2) []

/-- The body of the `for segment in segments` loop of
`_process_validated_segments`: register the speaker (notifying if a second or
later distinct speaker appears for the first time), create or update the
timing profile, append the transcript entry, update `last_speaker_id`. -/
def process_segment (timestamp : String)
    (acc : ServiceState × List TranscriptEntry × List SpeakerChange)
    (seg : Segment) : ServiceState × List TranscriptEntry × List SpeakerChange :=
  let st := acc.1
  let is_new := (List.lookup seg.speaker_id st.speakers).isNone
  let nr := resolve_name st.speakers seg.speaker_id
  let segment_duration := seg.end_time - seg.start_time
  let timings2 :=
    if is_new then
      upsert st.speaker_timings seg.speaker_id ⟨segment_duration, 1⟩
    else
      match List.lookup seg.speaker_id st.speaker_timings with
      | some timing =>
        upsert st.speaker_timings seg.speaker_id
          ⟨(timing.avg_duration * (timing.segment_count : ℚ) + segment_duration)
              / ((timing.segment_count : ℚ) + 1),
            timing.segment_count + 1⟩
      | none => st.speaker_timings
  let notifs2 :=
    if is_new ∧ 1 < nr.2.length then acc.2.2 ++ [⟨seg.speaker_id, nr.1⟩] else acc.2.2
  let entry : TranscriptEntry :=
    ⟨timestamp, nr.1, seg.speaker_id, (String.intercalate " " seg.words).trim,
      some seg.confidence, true⟩
  ({ st with
      speakers := nr.2,
      speaker_timings := timings2,
      transcript := st.transcript ++ [entry],
      last_speaker_id := some seg.speaker_id },
    acc.2.1 ++ [entry], notifs2)

/-- `_process_validated_segments`. -/
def process_validated_segments (timestamp : String) (st : ServiceState)
    (segments : List Segment) :
    ServiceState × List TranscriptEntry × List SpeakerChange :=
  segments.foldl (process_segment timestamp) (st, [], [])

/-- `_process_single_speaker_segment`: register the speaker, append a
transcript entry that carries no `'confidence'` key, update
`last_speaker_id`; no timing profile is created or updated on this path. -/
def process_single_speaker_segment (timestamp : String) (st : ServiceState)
    (text : String) (speaker_id : Nat) :
    ServiceState × List TranscriptEntry × List SpeakerChange :=
  let is_new := (List.lookup speaker_id st.speakers).isNone
  let nr := resolve_name st.speakers speaker_id
  let notifs := if is_new ∧ 1 < nr.2.length then [(⟨speaker_id, nr.1⟩ : SpeakerChange)] else []
  let entry : TranscriptEntry := ⟨timestamp, nr.1, speaker_id, text, none, true⟩
  ({ st with
      speakers := nr.2,
      transcript := st.transcript ++ [entry],
      last_speaker_id := some speaker_id },
    [entry], notifs)

/-- The normalisation performed per word by `_process_words_with_speakers`:
default raw id 0 with confidence 0.0; when a speaker label is present the
confidence defaults to 0.8 if absent; `duration = end - start`. -/
def extract_word_info (w : RawWord) : WordInfo :=
  match w.speaker with
  | some sid =>
    ⟨w.word, sid, w.confidence.getD 0.8, w.start_time, w.end_time,
      w.end_time - w.start_time⟩
  | none => ⟨w.word, 0, 0, w.start_time, w.end_time, w.end_time - w.start_time⟩

/-- `_process_words_with_speakers`: normalise, validate, group, process. -/
def process_words_with_speakers (timestamp : String) (st : ServiceState)
    (words : List RawWord) :
    ServiceState × List TranscriptEntry × List SpeakerChange :=
  let word_data := words.map extract_word_info
  let v := validate_speaker_assignments st.last_speaker_id st.speaker_timings
    st.speaker_history st.speaker_consistency_scores word_data
  process_validated_segments timestamp
    { st with speaker_history := v.2.1, speaker_consistency_scores := v.2.2 }
    (group_into_segments v.1)

/-- `_handle_transcript_result`: blank transcripts are ignored; a result with
no word detail falls back to the single-speaker path with
`self.last_speaker_id if self.last_speaker_id is not None else 0`. -/
def handle_transcript_result (timestamp : String) (st : ServiceState)
    (sentence : String) (words : List RawWord) :
    ServiceState × List TranscriptEntry × List SpeakerChange :=
  if sentence.trim = "" then (st, [], [])
  else if words.isEmpty then
    process_single_speaker_segment timestamp st sentence.trim
      (st.last_speaker_id.getD 0)
  else
    process_words_with_speakers timestamp st words

/-! ## Claim-language definitions

These definitions restate notions used by the specification in terms of the
embedded word data, for use in theorem statements. -/

/-- The distinct elements of `l` in order of first appearance (the key order
of a Python dict filled by iterating `l`). -/
def first_seen (l : List Nat) : List Nat :=
  l.foldl (fun acc i => if i ∈ acc then acc else acc ++ [i]) []

/-- Number of occurrences of raw speaker `sid` in a context window. -/
def count_occ (sid : Nat) (ctx : List WordInfo) : Nat :=
  (ctx.filter (fun w => w.speaker_id == sid)).length

/-- Sum of the confidences of the occurrences of `sid` in a context window. -/
def conf_sum (sid : Nat) (ctx : List WordInfo) : ℚ :=
  ((ctx.filter (fun w => w.speaker_id == sid)).map (fun w => w.confidence)).sum

/-- The combined score of the specification, expressed through occurrence
count and confidence sum over the context window. -/
def combined_of (scores : List (Nat × ℚ)) (ctx : List WordInfo) (sid : Nat) : ℚ :=
  combined_score scores ctx.length sid (count_occ sid ctx) (conf_sum sid ctx)

/-- Interior window positions whose value equals `sid` AND matches at least
one neighbour — the per-speaker-filtered count that claim C4 attributes to
`consistency_score`. -/
def count_stable_for (sid : Nat) : List Nat → Nat
  | a :: b :: c :: rest =>
    (if b = sid ∧ (b = a ∨ b = c) then 1 else 0) + count_stable_for sid (b :: c :: rest)
  | _ => 0

/-- The value claim C4 says `consistency_score(sid)` returns for a recorded
speaker: the fraction of interior window positions whose value equals `sid`
and matches at least one neighbour. -/
def claimed_consistency_fraction (history : List Nat) (sid : Nat) : ℚ :=
  (count_stable_for sid history : ℚ) / ((history.length : ℚ) - 2)

/-- A sequence of `_update_speaker_history` calls starting from a fresh
session. -/
def record_all (l : List Nat) : List Nat × List (Nat × ℚ) :=
  l.foldl (fun acc sid => update_speaker_history acc.1 acc.2 sid) ([], [])

/-! ## Concrete inputs used by the scenario claims -/

/-- The clean-alternation batch of claim C1:
`[("Hello", 0, 0.9, 0.0-0.5), ("there", 0, 0.9, 0.5-1.0),
  ("Hi", 1, 0.9, 1.2-1.7), ("back", 1, 0.9, 1.7-2.2)]`. -/
def c1_words : List RawWord :=
  [⟨"Hello", some 0, some 0.9, 0, 0.5⟩,
   ⟨"there", some 0, some 0.9, 0.5, 1⟩,
   ⟨"Hi", some 1, some 0.9, 1.2, 1.7⟩,
   ⟨"back", some 1, some 0.9, 1.7, 2.2⟩]

/-- A batch for claim C2: raw labels alternate on every word, every
inter-word gap is 0.1s (< 1.0s) and every duration is 0.1s (< 0.3s). -/
def c2_words : List WordInfo :=
  [⟨"w0", 0, 0, 0, 1/10, 1/10⟩,
   ⟨"w1", 1, 1/2, 1/5, 1/5 + 1/10, 1/10⟩,
   ⟨"w2", 0, 0, 2/5, 2/5 + 1/10, 1/10⟩,
   ⟨"w3", 1, 1/2, 3/5, 3/5 + 1/10, 1/10⟩,
   ⟨"w4", 0, 1, 4/5, 4/5 + 1/10, 1/10⟩]

/-- A two-word batch for claim C3: the second word has a 0.1s gap, a 0.1s
duration, and a raw label (1) that forms a one-word run. -/
def c3_words : List WordInfo :=
  [⟨"a", 0, 0, 0, 1/10, 1/10⟩,
   ⟨"b", 1, 9/10, 1/5, 3/10, 1/10⟩]

/-- A three-word batch for claim C6: the middle word is proposed as
speaker 1 (which has a timing profile of average duration 10s), and its
±2-word context holds one word of raw speaker 2 and one of raw speaker 3 —
a tie. -/
def c6_words : List WordInfo :=
  [⟨"a", 2, 0, 0, 1/2, 1/2⟩,
   ⟨"b", 1, 9/10, 10, 21/2, 1/2⟩,
   ⟨"c", 3, 0, 53/5, 111/10, 1/2⟩]

/-- Timing profiles for the C6 scenario: speaker 1 averages 10s segments. -/
def c6_timings : List (Nat × TimingProfile) := [(1, ⟨10, 1⟩)]

/-- Session state for claim C8's counterexample: a fresh session after one
single-speaker fallback segment, which registers raw speaker 0 in
`self.speakers` without creating any timing profile. -/
def c8_state : ServiceState :=
  (process_single_speaker_segment "00:00:00" initial_state "hello" 0).1

/-- A batch with a single malformed word for claim C9: `end < start`, so
its duration is negative. -/
def c9_words : List RawWord := [⟨"x", some 0, some 0.9, 1, 1/2⟩]

/-! ## Claim C1 — clean-alternation scenario -/

/-- C1, counterexample: on the clean-alternation batch the engine does NOT
produce two transcript segments with one speaker-change notification.
(The contextual vote ties both speakers at combined score 0.62 for every
word of this batch — same counts, same confidences, neutral history — and
the tie-break keeps the first-encountered candidate, raw speaker 0, so the
whole batch collapses into a single segment.) -/
theorem C1_counterexample :
    ¬ (((process_words_with_speakers "00:00:00" initial_state c1_words).2.1).length = 2 ∧
      ((process_words_with_speakers "00:00:00" initial_state c1_words).2.2).length = 1) := by
  with_unfolding_all decide

/-- C1, amended: on a fresh session the clean-alternation batch produces
exactly ONE transcript segment, `"Hello there Hi back"` attributed to
`"Speaker 1"` (raw id 0), and fires NO speaker-change notification. -/
theorem C1_theorem :
    ((process_words_with_speakers "00:00:00" initial_state c1_words).2.1).map
        (fun e => (e.speaker, e.speaker_id, e.text)) =
      [("Speaker 1", 0, "Hello there Hi back")] ∧
    (process_words_with_speakers "00:00:00" initial_state c1_words).2.2 = [] := by
  with_unfolding_all decide

/-! ## Claim C2 — anti-fragmentation -/

/-- C2, counterexample: `c2_words` alternates raw labels on every word with
all gaps < 1.0s and all durations < 0.3s, yet the validator outputs a
one-word segment (the vote assigns speaker 1 to the first word only, and on
a fresh session the rapid-switch override `last_speaker_id or proposed`
falls back to the proposed speaker, leaving the fragment in place). -/
theorem C2_counterexample :
    (group_into_segments
        (validate_speaker_assignments none [] [] [] c2_words).1).map
      (fun s => s.words.length) = [1, 4] := by
  with_unfolding_all decide

/-! ## Claim C3 — rapid-switch guard -/

/-- C3: evaluation of the rapid-switch guard at the failing input. In
`c3_words` the guard condition holds at index 1 for proposed speaker 1
(gap 0.1s < 1.0s, duration 0.1s < 0.3s, one-word run). With last confirmed
speaker 2 the override returns 2 as specified, but with last confirmed
speaker 0 the Python expression `self.last_speaker_id or proposed_speaker`
treats 0 as falsy and returns the PROPOSED speaker 1 instead of 0. -/
theorem C3_theorem :
    would_create_short_segment 1 1 c3_words = true ∧
    (c3_words.getD 1 default).duration < min_segment_duration ∧
    (c3_words.getD 1 default).start_time - (c3_words.getD 0 default).end_time
      < max_rapid_switch_time ∧
    apply_temporal_validation (some 0) [] 1 1 c3_words = 1 ∧
    apply_temporal_validation (some 2) [] 1 1 c3_words = 2 := by
  with_unfolding_all decide

/-! ## Claim C4 — consistency score -/

/-- C4, counterexample: after recording speakers 0, 0, 1 the window is
`[0, 0, 1]` and the code stores, under the just-recorded speaker 1, the
window-wide stability ratio 1/1 = 1 (interior position holds 0, which
matches its left neighbour). The claim instead demands the per-speaker
filtered fraction, which is 0 for speaker 1 here. -/
theorem C4_counterexample :
    get_speaker_consistency_score (record_all [0, 0, 1]).2 1 = 1 ∧
    claimed_consistency_fraction (record_all [0, 0, 1]).1 1 = 0 := by
  with_unfolding_all decide

/-! ## Claim C6 — timing-prior guard -/

/-- C6, counterexample: at index 1 of `c6_words` the rapid-switch guard does
not apply (gap 9.5s), speaker 1 has a timing profile with average 10s and
the word lasts 0.5s < 1.0s = 10% of that average, so the contextual
majority vote runs; the ±2-word context (speakers 2 and 3, one word each)
is a tie, and the code returns the first-encountered id 2 — NOT the last
confirmed speaker 5 that the claim requires. -/
theorem C6_counterexample :
    apply_temporal_validation (some 5) c6_timings 1 1 c6_words = 2 ∧
    apply_temporal_validation (some 5) c6_timings 1 1 c6_words ≠ 5 := by
  with_unfolding_all decide

/-! ## Claim C8 — timing-profile running average -/

/-- C8, counterexample: in `c8_state` speaker 0 is already registered (via
the single-speaker fallback path, which creates no timing profile), so the
first finalized segment for speaker 0 — duration 2.0 — does NOT set its
profile to `{avg_duration: 2.0, segment_count: 1}`; no profile is created
at all, because `_process_validated_segments` only creates profiles for
speakers absent from `self.speakers`. -/
theorem C8_counterexample :
    List.lookup 0 (process_segment "00:00:01" (c8_state, [], [])
        ⟨0, ["a", "b"], 0, 2, 9/10⟩).1.speaker_timings = none ∧
    ¬ (List.lookup 0 (process_segment "00:00:01" (c8_state, [], [])
        ⟨0, ["a", "b"], 0, 2, 9/10⟩).1.speaker_timings
      = some ⟨2, 1⟩) := by
  with_unfolding_all decide

/-! ## Claim C9 — malformed word events -/

/-- C9, counterexample: the word `"x"` has `end_time < start_time`
(duration −0.5s), yet it is not dropped: it is processed like any other
word and yields a transcript segment containing it. -/
theorem C9_counterexample :
    ((process_words_with_speakers "00:00:00" initial_state c9_words).2.1).map
      (fun e => e.text) = ["x"] ∧
    ((c9_words.map extract_word_info).getD 0 default).duration < 0 := by
  with_unfolding_all decide

/-! ## Claim C10 — single-speaker fallback -/

/-- C10, counterexample: the fallback transcript entry carries NO confidence
field (the dict built by `_process_single_speaker_segment` has no
`'confidence'` key), contradicting the claim that every `TranscriptEntry`
field, confidence included, is present. -/
theorem C10_counterexample :
    ((handle_transcript_result "00:00:00" initial_state "Hello world" []).2.1).map
      (fun e => e.confidence) = [none] := by
  with_unfolding_all decide

/-! ## Association-list helper lemmas -/

/-- After `d[k] = v`, looking up `k` yields `v`. -/
theorem lookup_upsert_self {V : Type} (l : List (Nat × V)) (k : Nat) (v : V) :
    List.lookup k (upsert l k v) = some v := by
  induction l with
  | nil => simp [upsert, List.lookup]
  | cons p rest ih =>
    obtain ⟨k', v'⟩ := p
    by_cases h : k' = k
    · simp [upsert, h, List.lookup]
    · simp only [upsert, if_neg h, List.lookup]
      have : (k == k') = false := by
        exact beq_eq_false_iff_ne.mpr (fun hk => h hk.symm)
      simp [this, ih]

/-- After `d[k] = v`, looking up any other key is unchanged. -/
theorem lookup_upsert_ne {V : Type} (l : List (Nat × V)) (k t : Nat) (v : V)
    (h : t ≠ k) : List.lookup t (upsert l k v) = List.lookup t l := by
  induction l with
  | nil =>
    simp only [upsert, List.lookup]
    simp [beq_eq_false_iff_ne.mpr h]
  | cons p rest ih =>
    obtain ⟨k', v'⟩ := p
    by_cases hk : k' = k
    · subst hk
      simp only [upsert, if_pos rfl, List.lookup]
      simp [beq_eq_false_iff_ne.mpr h]
    · simp only [upsert, if_neg hk, List.lookup]
      cases hbe : (t == k') <;> simp [ih]

/-! ## Claim C2 — amended theorem -/

/-- C2, amended: in a batch whose raw labels alternate on every word, with
every inter-word gap below 1.0s and every duration below 0.3s, the
rapid-switch guard fires for every word at index ≥ 1 whose proposed speaker
would create a run of fewer than 2 same-raw-label words, and the word is
then assigned `last_speaker_id or proposed` — the last confirmed speaker
when that is a nonzero id, and the proposed speaker itself when the last
confirmed speaker is absent or 0. Segments of fewer than 2 words can still
be produced (see the counterexample). -/
theorem C2_theorem (last : Option Nat) (timings : List (Nat × TimingProfile))
    (word_data : List WordInfo)
    (halt : ∀ j, j < word_data.length → j + 1 < word_data.length →
      (word_data.getD j default).speaker_id ≠ (word_data.getD (j + 1) default).speaker_id)
    (hgap : ∀ j, j < word_data.length → 0 < j →
      (word_data.getD j default).start_time - (word_data.getD (j - 1) default).end_time
        < max_rapid_switch_time)
    (hdur : ∀ j, j < word_data.length →
      (word_data.getD j default).duration < min_segment_duration)
    (i : Nat) (hi0 : 0 < i) (hilen : i < word_data.length) (p : Nat)
    (hshort : would_create_short_segment p i word_data = true) :
    apply_temporal_validation last timings p i word_data = last_or last p := by
  unfold apply_temporal_validation
  rw [if_pos ⟨hi0, hgap i hilen hi0, hdur i hilen, hshort⟩]

/-- Witness for `C2_theorem`: the hypotheses hold for `c2_words` at index 2
with proposed speaker 0 (a one-word run of raw label 0 there), so on a fresh
session the guard yields `last_or none 0 = 0`. -/
theorem C2_witness :
    apply_temporal_validation none [] 0 2 c2_words = last_or none 0 :=
  C2_theorem none [] c2_words
    (by with_unfolding_all decide) (by with_unfolding_all decide)
    (by with_unfolding_all decide) 2 (by decide) (by decide) 0
    (by with_unfolding_all decide)

/-! ## Claim C4 — amended theorem -/

/-- History updates touch only the score entry of the recorded speaker. -/
theorem lookup_scores_record_none (l : List Nat) :
    ∀ (hist : List Nat) (scores : List (Nat × ℚ)) (s : Nat), s ∉ l →
      List.lookup s scores = none →
      List.lookup s
        ((l.foldl (fun acc sid => update_speaker_history acc.1 acc.2 sid)
          (hist, scores)).2) = none := by
  induction l with
  | nil => intro hist scores s _ h0; simpa using h0
  | cons a rest ih =>
    intro hist scores s hs h0
    have hsa : s ≠ a := fun h => hs (by simp [h])
    have hrest : s ∉ rest := fun h => hs (List.mem_cons_of_mem a h)
    have step2 : List.lookup s (update_speaker_history hist scores a).2 = none := by
      by_cases hc : 3 ≤ (bounded_window hist a).length
      · simp only [update_speaker_history, if_pos hc]
        simpa [lookup_upsert_ne _ _ _ _ hsa] using h0
      · simp only [update_speaker_history, if_neg hc]
        simpa using h0
    simp only [List.foldl_cons]
    exact ih (update_speaker_history hist scores a).1
      (update_speaker_history hist scores a).2 s hrest step2

/-- C4, amended: `consistency_score(s)` is the value stored at the most
recent `record(s)` whose post-update window held at least 3 entries — the
fraction of interior window positions of ANY speaker that match at least one
neighbour — and 0.5 when no such value was ever stored. Concretely:
(1) a speaker never recorded since the session started scores 0.5;
(2) recording `s` while the updated window holds ≥ 3 entries stores, under
`s`, the window-wide ratio `count_stable / (len - 2)`;
(3) recording `s` never changes any other speaker's stored score;
(4) recording while the updated window holds < 3 entries stores nothing. -/
theorem C4_theorem :
    (∀ (l : List Nat) (s : Nat), s ∉ l →
      get_speaker_consistency_score (record_all l).2 s = 0.5) ∧
    (∀ (history : List Nat) (scores : List (Nat × ℚ)) (sid : Nat),
      3 ≤ ((update_speaker_history history scores sid).1).length →
      get_speaker_consistency_score (update_speaker_history history scores sid).2 sid =
        (count_stable (update_speaker_history history scores sid).1 : ℚ) /
          (((update_speaker_history history scores sid).1.length : ℚ) - 2)) ∧
    (∀ (history : List Nat) (scores : List (Nat × ℚ)) (sid t : Nat), t ≠ sid →
      get_speaker_consistency_score (update_speaker_history history scores sid).2 t =
        get_speaker_consistency_score scores t) ∧
    (∀ (history : List Nat) (scores : List (Nat × ℚ)) (sid : Nat),
      ((update_speaker_history history scores sid).1).length < 3 →
      (update_speaker_history history scores sid).2 = scores) := by
  refine ⟨?_, ?_, ?_, ?_⟩
  · intro l s hs
    have := lookup_scores_record_none l [] [] s hs (by simp [List.lookup])
    simp only [record_all]
    simp [get_speaker_consistency_score, this]
  · intro history scores sid h3
    by_cases hc : 3 ≤ (bounded_window history sid).length
    · simp only [update_speaker_history, if_pos hc]
      simp [get_speaker_consistency_score, lookup_upsert_self]
    · exfalso
      simp only [update_speaker_history, if_neg hc] at h3
      exact hc h3
  · intro history scores sid t ht
    by_cases hc : 3 ≤ (bounded_window history sid).length
    · simp only [update_speaker_history, if_pos hc]
      simp [get_speaker_consistency_score, lookup_upsert_ne _ _ _ _ ht]
    · simp only [update_speaker_history, if_neg hc]
  · intro history scores sid hlt
    by_cases hc : 3 ≤ (bounded_window history sid).length
    · exfalso
      simp only [update_speaker_history, if_pos hc] at hlt
      omega
    · simp only [update_speaker_history, if_neg hc]

/-- Witness for `C4_theorem`: concrete instances of all four parts. -/
theorem C4_witness :
    get_speaker_consistency_score (record_all [0, 2]).2 5 = 0.5 ∧
    get_speaker_consistency_score (update_speaker_history [0, 0] [] 1).2 1 =
      (count_stable (update_speaker_history [0, 0] [] 1).1 : ℚ) /
        (((update_speaker_history [0, 0] [] 1).1.length : ℚ) - 2) ∧
    get_speaker_consistency_score (update_speaker_history [0, 0] [] 1).2 0 =
      get_speaker_consistency_score [] 0 ∧
    (update_speaker_history [] [] 7).2 = [] :=
  ⟨C4_theorem.1 [0, 2] 5 (by decide),
   C4_theorem.2.1 [0, 0] [] 1 (by with_unfolding_all decide),
   C4_theorem.2.2.1 [0, 0] [] 1 0 (by decide),
   C4_theorem.2.2.2 [] [] 7 (by with_unfolding_all decide)⟩

/-! ## Claim C8 — amended theorem -/

/-- C8, amended: for a speaker first registered on the word-level segment
path, the first finalized segment sets its profile to
`{avg_duration: duration, segment_count: 1}` and each later segment updates
it by the weighted running mean (so durations 2.0, 4.0, 3.0 give averages
2.0, 3.0, 3.0); but a speaker already registered WITHOUT a timing profile
(first named via the single-speaker fallback path) never acquires one —
its finalized segments leave the timing table unchanged. -/
theorem C8_theorem :
    (∀ (ts : String) (st : ServiceState) (es : List TranscriptEntry)
        (ns : List SpeakerChange) (seg : Segment),
      List.lookup seg.speaker_id st.speakers = none →
      List.lookup seg.speaker_id
          (process_segment ts (st, es, ns) seg).1.speaker_timings =
        some ⟨seg.end_time - seg.start_time, 1⟩) ∧
    (∀ (ts : String) (st : ServiceState) (es : List TranscriptEntry)
        (ns : List SpeakerChange) (seg : Segment) (name : String)
        (avg : ℚ) (n : Nat),
      List.lookup seg.speaker_id st.speakers = some name →
      List.lookup seg.speaker_id st.speaker_timings = some ⟨avg, n⟩ →
      List.lookup seg.speaker_id
          (process_segment ts (st, es, ns) seg).1.speaker_timings =
        some ⟨(avg * (n : ℚ) + (seg.end_time - seg.start_time)) / ((n : ℚ) + 1),
          n + 1⟩) ∧
    (∀ (ts : String) (st : ServiceState) (es : List TranscriptEntry)
        (ns : List SpeakerChange) (seg : Segment) (name : String),
      List.lookup seg.speaker_id st.speakers = some name →
      List.lookup seg.speaker_id st.speaker_timings = none →
      (process_segment ts (st, es, ns) seg).1.speaker_timings =
        st.speaker_timings) := by
  refine ⟨?_, ?_, ?_⟩
  · intro ts st es ns seg hnew
    simp [process_segment, hnew, lookup_upsert_self]
  · intro ts st es ns seg name avg n hold htim
    simp [process_segment, hold, htim, lookup_upsert_self]
  · intro ts st es ns seg name hold htim
    simp [process_segment, hold, htim]

/-- A one-word segment of duration `d` for raw speaker 7, used to witness
the running-average updates of `C8_theorem`. -/
def c8_seg (d : ℚ) : Segment := ⟨7, ["w"], 0, d, 1⟩

/-- Fresh-session states after enrolling segments of durations 2, 4, 3. -/
def c8_run1 : ServiceState × List TranscriptEntry × List SpeakerChange :=
  process_segment "t" (initial_state, [], []) (c8_seg 2)

/-- State after the second enrolled segment (duration 4). -/
def c8_run2 : ServiceState × List TranscriptEntry × List SpeakerChange :=
  process_segment "t" (c8_run1.1, [], []) (c8_seg 4)

/-- State after the third enrolled segment (duration 3). -/
def c8_run3 : ServiceState × List TranscriptEntry × List SpeakerChange :=
  process_segment "t" (c8_run2.1, [], []) (c8_seg 3)

/-- Witness for `C8_theorem`: durations 2.0, 4.0, 3.0 for a fresh speaker
give averages 2.0, then (2·1+4)/2 = 3.0, then 3.0. -/
theorem C8_witness :
    List.lookup 7 c8_run1.1.speaker_timings =
      some ⟨(c8_seg 2).end_time - (c8_seg 2).start_time, 1⟩ ∧
    List.lookup 7 c8_run2.1.speaker_timings =
      some ⟨((2 : ℚ) * (1 : ℚ) + ((c8_seg 4).end_time - (c8_seg 4).start_time))
        / ((1 : ℚ) + 1), 1 + 1⟩ ∧
    List.lookup 7 c8_run1.1.speaker_timings = some ⟨2, 1⟩ ∧
    List.lookup 7 c8_run2.1.speaker_timings = some ⟨3, 2⟩ ∧
    List.lookup 7 c8_run3.1.speaker_timings = some ⟨3, 3⟩ :=
  ⟨C8_theorem.1 "t" initial_state [] [] (c8_seg 2) (by with_unfolding_all decide),
   C8_theorem.2.1 "t" c8_run1.1 [] [] (c8_seg 4) "Speaker 1" 2 1
     (by with_unfolding_all decide) (by with_unfolding_all decide),
   by with_unfolding_all decide,
   by with_unfolding_all decide,
   by with_unfolding_all decide⟩

/-! ## Claim C9 — amended theorem -/

/-- Each `validate_step` appends exactly one validated word. -/
theorem validate_fold_length (last : Option Nat)
    (timings : List (Nat × TimingProfile)) (word_data : List WordInfo)
    (l : List Nat) :
    ∀ (acc : List VWord × List Nat × List (Nat × ℚ)),
      ((l.foldl (validate_step last timings word_data) acc).1).length =
        acc.1.length + l.length := by
  induction l with
  | nil => intro acc; simp
  | cons a rest ih =>
    intro acc
    simp only [List.foldl_cons]
    rw [ih]
    simp [validate_step]
    omega

/-- `group_loop` distributes every remaining word into some segment. -/
theorem group_loop_sum (vws : List VWord) :
    ∀ (cur : Segment),
      ((group_loop vws cur).map (fun s => s.words.length)).sum =
        cur.words.length + vws.length := by
  induction vws with
  | nil => intro cur; simp [group_loop]
  | cons v rest ih =>
    intro cur
    unfold group_loop
    split
    · rw [ih]
      simp
      omega
    · simp only [List.map_cons, List.sum_cons]
      rw [ih]
      simp
      omega

/-- Total word count across the grouped segments equals the number of
validated words. -/
theorem group_into_segments_sum (vws : List VWord) :
    ((group_into_segments vws).map (fun s => s.words.length)).sum = vws.length := by
  cases vws with
  | nil => simp [group_into_segments]
  | cons v rest =>
    unfold group_into_segments
    rw [group_loop_sum]
    simp
    omega

/-- C9, amended: the engine performs NO malformed-word check: every word of
a batch — including words with negative duration (`end < start`) or empty
text — is validated and contributes to exactly one output segment, so the
total word count across the segments always equals the input word count,
whatever the session state. -/
theorem C9_theorem (last : Option Nat) (timings : List (Nat × TimingProfile))
    (history : List Nat) (scores : List (Nat × ℚ)) (word_data : List WordInfo) :
    ((group_into_segments
        (validate_speaker_assignments last timings history scores word_data).1).map
      (fun s => s.words.length)).sum = word_data.length := by
  rw [group_into_segments_sum]
  unfold validate_speaker_assignments
  rw [validate_fold_length]
  simp

/-! ## Claim C10 — amended theorem -/

/-- C10, amended: a result with non-blank transcript text and no word-level
detail appends exactly one transcript entry, attributed to
`last_speaker_id if last_speaker_id is not None else 0` with the registered
display name, carrying the wall-clock time, the trimmed text and
`is_final = true` — but NO confidence value (`none`: the source dict has no
`'confidence'` key on this path). -/
theorem C10_theorem (timestamp : String) (st : ServiceState) (sentence : String)
    (h : sentence.trim ≠ "") :
    (handle_transcript_result timestamp st sentence []).2.1 =
      [⟨timestamp,
        (resolve_name st.speakers (st.last_speaker_id.getD 0)).1,
        st.last_speaker_id.getD 0, sentence.trim, none, true⟩] := by
  unfold handle_transcript_result
  rw [if_neg h]
  simp [process_single_speaker_segment]

/-- Witness for `C10_theorem` on a fresh session. -/
theorem C10_witness :
    (handle_transcript_result "09:00:00" initial_state "Hi" []).2.1 =
      [⟨"09:00:00",
        (resolve_name initial_state.speakers (initial_state.last_speaker_id.getD 0)).1,
        initial_state.last_speaker_id.getD 0, "Hi".trim, none, true⟩] :=
  C10_theorem "09:00:00" initial_state "Hi" (by with_unfolding_all decide)

/-! ## Claim C7 — speaker registry naming -/

/-- The registry held after the distinct raw ids `l` (listed in first-seen
order) have been registered, when `k` speakers were known beforehand: the
`n`-th id of `l` is displayed as `"Speaker " ++ toString (k + n + 1)`. -/
def canon_registry (k : Nat) : List Nat → List (Nat × String)
  | [] => []
  | s :: rest => (s, "Speaker " ++ toString (k + 1)) :: canon_registry (k + 1) rest

/-- `first_seen` computed from an arbitrary starting accumulator. -/
def first_seen_from (acc : List Nat) (l : List Nat) : List Nat :=
  l.foldl (fun acc i => if i ∈ acc then acc else acc ++ [i]) acc

theorem first_seen_from_cons (acc : List Nat) (a : Nat) (l : List Nat) :
    first_seen_from acc (a :: l) =
      first_seen_from (if a ∈ acc then acc else acc ++ [a]) l := rfl

theorem first_seen_from_append (acc : List Nat) (l₁ l₂ : List Nat) :
    first_seen_from acc (l₁ ++ l₂) = first_seen_from (first_seen_from acc l₁) l₂ := by
  simp [first_seen_from, List.foldl_append]

theorem first_seen_from_nodup (l : List Nat) :
    ∀ acc : List Nat, acc.Nodup → (first_seen_from acc l).Nodup := by
  induction l with
  | nil => intro acc h; exact h
  | cons a rest ih =>
    intro acc h
    rw [first_seen_from_cons]
    by_cases ha : a ∈ acc
    · rw [if_pos ha]; exact ih acc h
    · rw [if_neg ha]
      refine ih (acc ++ [a]) ?_
      rw [List.nodup_append]
      exact ⟨h, List.nodup_singleton a, by simpa using ha⟩

theorem first_seen_from_mem (l : List Nat) :
    ∀ (acc : List Nat) (s : Nat), s ∈ first_seen_from acc l ↔ s ∈ acc ∨ s ∈ l := by
  induction l with
  | nil => intro acc s; simp [first_seen_from]
  | cons a rest ih =>
    intro acc s
    rw [first_seen_from_cons]
    by_cases ha : a ∈ acc
    · rw [if_pos ha, ih]
      constructor
      · rintro (h | h)
        · exact Or.inl h
        · exact Or.inr (List.mem_cons_of_mem a h)
      · rintro (h | h)
        · exact Or.inl h
        · rcases List.mem_cons.mp h with h | h
          · exact Or.inl (h ▸ ha)
          · exact Or.inr h
    · rw [if_neg ha, ih]
      simp only [List.mem_append, List.mem_singleton, List.mem_cons]
      tauto

theorem first_seen_from_extends (l : List Nat) :
    ∀ acc : List Nat, ∃ t, first_seen_from acc l = acc ++ t := by
  induction l with
  | nil => intro acc; exact ⟨[], by simp [first_seen_from]⟩
  | cons a rest ih =>
    intro acc
    rw [first_seen_from_cons]
    by_cases ha : a ∈ acc
    · rw [if_pos ha]; exact ih acc
    · rw [if_neg ha]
      obtain ⟨t, ht⟩ := ih (acc ++ [a])
      exact ⟨[a] ++ t, by rw [ht, List.append_assoc]⟩

theorem canon_registry_length (k : Nat) (l : List Nat) :
    (canon_registry k l).length = l.length := by
  induction l generalizing k with
  | nil => rfl
  | cons a rest ih => simp [canon_registry, ih]

theorem canon_registry_append (k : Nat) (l : List Nat) (a : Nat) :
    canon_registry k (l ++ [a]) =
      canon_registry k l ++ [(a, "Speaker " ++ toString (k + l.length + 1))] := by
  induction l generalizing k with
  | nil => simp [canon_registry]
  | cons b rest ih =>
    simp only [List.cons_append, canon_registry, List.append_eq]
    rw [ih (k + 1)]
    simp only [List.length_cons]
    have : k + 1 + rest.length + 1 = k + (rest.length + 1) + 1 := by omega
    rw [this]

theorem lookup_canon_not_mem (k : Nat) (l : List Nat) (s : Nat) (h : s ∉ l) :
    List.lookup s (canon_registry k l) = none := by
  induction l generalizing k with
  | nil => rfl
  | cons a rest ih =>
    have hsa : s ≠ a := fun e => h (by simp [e])
    have hrest : s ∉ rest := fun e => h (List.mem_cons_of_mem a e)
    simp only [canon_registry, List.lookup, beq_eq_false_iff_ne.mpr hsa]
    exact ih (k + 1) hrest

theorem lookup_canon_mem (k : Nat) (l : List Nat) (s : Nat) (hnd : l.Nodup)
    (h : s ∈ l) :
    List.lookup s (canon_registry k l) =
      some ("Speaker " ++ toString (k + l.indexOf s + 1)) := by
  induction l generalizing k with
  | nil => cases h
  | cons a rest ih =>
    by_cases hsa : s = a
    · subst hsa
      simp [canon_registry, List.lookup, List.indexOf_cons_self]
    · have hrest : s ∈ rest := by
        rcases List.mem_cons.mp h with e | e
        · exact absurd e hsa
        · exact e
      have has : a ≠ s := fun e => hsa e.symm
      simp only [canon_registry, List.lookup, beq_eq_false_iff_ne.mpr hsa]
      rw [ih (k + 1) (List.Nodup.of_cons hnd) hrest,
        List.indexOf_cons_ne rest has]
      have : k + 1 + rest.indexOf s = k + (rest.indexOf s).succ := by omega
      rw [this]

theorem resolve_canon_step (l : List Nat) (hnd : l.Nodup) (a : Nat) :
    (resolve_name (canon_registry 0 l) a).2 =
      canon_registry 0 (if a ∈ l then l else l ++ [a]) := by
  by_cases ha : a ∈ l
  · rw [if_pos ha]
    have hl := lookup_canon_mem 0 l a hnd ha
    simp [resolve_name, hl]
  · rw [if_neg ha]
    have hn := lookup_canon_not_mem 0 l a ha
    simp [resolve_name, hn, canon_registry_append, canon_registry_length]

theorem registry_fold_canon (ids : List Nat) : ∀ (l : List Nat), l.Nodup →
    ids.foldl (fun reg sid => (resolve_name reg sid).2) (canon_registry 0 l) =
      canon_registry 0 (first_seen_from l ids) := by
  induction ids with
  | nil => intro l _; rfl
  | cons a rest ih =>
    intro l hnd
    rw [List.foldl_cons, resolve_canon_step l hnd a, first_seen_from_cons]
    by_cases ha : a ∈ l
    · rw [if_pos ha]
      exact ih l hnd
    · rw [if_neg ha]
      refine ih (l ++ [a]) ?_
      rw [List.nodup_append]
      exact ⟨hnd, List.nodup_singleton a, by simpa using ha⟩

/-- C7: within one session, the `N`-th distinct raw speaker id encountered —
on either processing path, both of which register ids through
`resolve_name` — is displayed as `"Speaker N"` (its position in the
first-seen list, plus one), every later resolution after arbitrary further
traffic `more` returns exactly that name, and resolving an already-known id
leaves the registry unchanged (no entry is ever renamed or deleted). -/
theorem C7_theorem (ids more : List Nat) (s : Nat) (h : s ∈ ids) :
    List.lookup s (registry_after ids) =
      some ("Speaker " ++ toString ((first_seen ids).indexOf s + 1)) ∧
    List.lookup s (registry_after (ids ++ more)) =
      some ("Speaker " ++ toString ((first_seen ids).indexOf s + 1)) ∧
    (resolve_name (registry_after (ids ++ more)) s).1 =
      "Speaker " ++ toString ((first_seen ids).indexOf s + 1) ∧
    (resolve_name (registry_after (ids ++ more)) s).2 =
      registry_after (ids ++ more) := by
  have hfi : registry_after ids = canon_registry 0 (first_seen_from [] ids) :=
    registry_fold_canon ids [] List.nodup_nil
  have hfa : registry_after (ids ++ more) =
      canon_registry 0 (first_seen_from [] (ids ++ more)) :=
    registry_fold_canon (ids ++ more) [] List.nodup_nil
  have hnd : (first_seen_from [] ids).Nodup := first_seen_from_nodup ids [] List.nodup_nil
  have hmem : s ∈ first_seen_from [] ids := by
    rw [first_seen_from_mem]
    exact Or.inr h
  have hfs : first_seen ids = first_seen_from [] ids := rfl
  have h1 : List.lookup s (registry_after ids) =
      some ("Speaker " ++ toString ((first_seen ids).indexOf s + 1)) := by
    rw [hfi, lookup_canon_mem 0 _ s hnd hmem, hfs]
    simp
  obtain ⟨t, ht⟩ := first_seen_from_extends more (first_seen_from [] ids)
  have hnd2 : (first_seen_from [] (ids ++ more)).Nodup :=
    first_seen_from_nodup (ids ++ more) [] List.nodup_nil
  have hsplit : first_seen_from [] (ids ++ more) = first_seen_from [] ids ++ t := by
    rw [first_seen_from_append]
    exact ht
  have hmem2 : s ∈ first_seen_from [] (ids ++ more) := by
    rw [hsplit]
    exact List.mem_append_left t hmem
  have h2 : List.lookup s (registry_after (ids ++ more)) =
      some ("Speaker " ++ toString ((first_seen ids).indexOf s + 1)) := by
    rw [hfa, lookup_canon_mem 0 _ s hnd2 hmem2, hsplit,
      List.indexOf_append_of_mem hmem, hfs]
    simp
  refine ⟨h1, h2, ?_, ?_⟩
  · simp [resolve_name, h2]
  · simp [resolve_name, h2]

/-- Witness for `C7_theorem`: in the traffic `[5, 7, 5, 3]` followed by
`[9, 7]`, raw id 7 is the second distinct id and is always displayed as
`"Speaker 2"`. -/
theorem C7_witness :
    (List.lookup 7 (registry_after [5, 7, 5, 3]) =
      some ("Speaker " ++ toString ((first_seen [5, 7, 5, 3]).indexOf 7 + 1)) ∧
    List.lookup 7 (registry_after ([5, 7, 5, 3] ++ [9, 7])) =
      some ("Speaker " ++ toString ((first_seen [5, 7, 5, 3]).indexOf 7 + 1)) ∧
    (resolve_name (registry_after ([5, 7, 5, 3] ++ [9, 7])) 7).1 =
      "Speaker " ++ toString ((first_seen [5, 7, 5, 3]).indexOf 7 + 1) ∧
    (resolve_name (registry_after ([5, 7, 5, 3] ++ [9, 7])) 7).2 =
      registry_after ([5, 7, 5, 3] ++ [9, 7])) ∧
    "Speaker " ++ toString ((first_seen [5, 7, 5, 3]).indexOf 7 + 1) = "Speaker 2" :=
  ⟨C7_theorem [5, 7, 5, 3] [9, 7] 7 (by decide), by decide⟩

/-! ## Generic first-argmax fold

Both the candidate-selection loop of `_validate_speaker_assignments` and
Python's `max(d, key=d.get)` keep the current best unless a later item is
STRICTLY greater, so the first maximal item (in iteration order) wins. -/

/-- One comparison step of such a loop, for an arbitrary value function. -/
def best_step {β : Type} [LinearOrder β] (val : Nat → β) (best : Nat × β)
    (s : Nat) : Nat × β :=
  if val s > best.2 then (s, val s) else best

/-- Characterisation of the first-argmax fold: either no item beat the seed
(and the seed survives), or the result is an item that strictly beats the
seed and every earlier item, and is at least every later item. -/
theorem best_fold_spec {β : Type} [LinearOrder β] (val : Nat → β) :
    ∀ (cands : List Nat) (b₀ : Nat) (s₀ : β),
      (cands.foldl (best_step val) (b₀, s₀) = (b₀, s₀) ∧ ∀ s ∈ cands, val s ≤ s₀) ∨
      (∃ l1 l2, cands = l1 ++ (cands.foldl (best_step val) (b₀, s₀)).1 :: l2 ∧
        (cands.foldl (best_step val) (b₀, s₀)).2 =
          val (cands.foldl (best_step val) (b₀, s₀)).1 ∧
        s₀ < (cands.foldl (best_step val) (b₀, s₀)).2 ∧
        (∀ s ∈ l1, val s < (cands.foldl (best_step val) (b₀, s₀)).2) ∧
        (∀ s ∈ l2, val s ≤ (cands.foldl (best_step val) (b₀, s₀)).2)) := by
  intro cands
  induction cands with
  | nil =>
    intro b₀ s₀
    left
    exact ⟨rfl, by simp⟩
  | cons a rest ih =>
    intro b₀ s₀
    rw [List.foldl_cons]
    by_cases h : val a > s₀
    · rw [show best_step val (b₀, s₀) a = (a, val a) by simp [best_step, h]]
      rcases ih a (val a) with ⟨heq, hall⟩ | ⟨l1, l2, hdec, hv, hgt, hl1, hl2⟩
      · right
        refine ⟨[], rest, ?_, ?_, ?_, ?_, ?_⟩
        · rw [heq]
          simp
        · rw [heq]
        · rw [heq]; exact h
        · simp
        · intro s hs
          rw [heq]
          exact hall s hs
      · right
        refine ⟨a :: l1, l2, ?_, hv, ?_, ?_, hl2⟩
        · rw [List.cons_append, ← hdec]
        · exact lt_trans h hgt
        · intro s hs
          rcases List.mem_cons.mp hs with e | e
          · rw [e]; exact hgt
          · exact hl1 s e
    · rw [show best_step val (b₀, s₀) a = (b₀, s₀) by simp [best_step, h]]
      rcases ih b₀ s₀ with ⟨heq, hall⟩ | ⟨l1, l2, hdec, hv, hgt, hl1, hl2⟩
      · left
        refine ⟨heq, ?_⟩
        intro s hs
        rcases List.mem_cons.mp hs with e | e
        · rw [e]; exact not_lt.mp h
        · exact hall s e
      · right
        refine ⟨a :: l1, l2, ?_, hv, hgt, ?_, hl2⟩
        · rw [List.cons_append, ← hdec]
        · intro s hs
          rcases List.mem_cons.mp hs with e | e
          · rw [e]
            exact lt_of_le_of_lt (not_lt.mp h) hgt
          · exact hl1 s e

/-! ## The vote tally in canonical form -/

theorem mem_first_seen (l : List Nat) (s : Nat) : s ∈ first_seen l ↔ s ∈ l := by
  rw [show first_seen l = first_seen_from [] l from rfl, first_seen_from_mem]
  simp

theorem first_seen_nodup (l : List Nat) : (first_seen l).Nodup :=
  first_seen_from_nodup l [] List.nodup_nil

theorem first_seen_append_one (l : List Nat) (a : Nat) :
    first_seen (l ++ [a]) =
      if a ∈ first_seen l then first_seen l else first_seen l ++ [a] := by
  simp [first_seen, List.foldl_append]

theorem speaker_votes_append (ctx : List WordInfo) (w : WordInfo) :
    speaker_votes (ctx ++ [w]) =
      add_vote (speaker_votes ctx) w.speaker_id w.confidence := by
  simp [speaker_votes, List.foldl_append]

theorem count_occ_append (sid : Nat) (ctx : List WordInfo) (w : WordInfo) :
    count_occ sid (ctx ++ [w]) =
      count_occ sid ctx + (if w.speaker_id = sid then 1 else 0) := by
  unfold count_occ
  rw [List.filter_append, List.length_append]
  congr 1
  by_cases h : w.speaker_id = sid
  · simp [h]
  · simp [h]

theorem conf_sum_append (sid : Nat) (ctx : List WordInfo) (w : WordInfo) :
    conf_sum sid (ctx ++ [w]) =
      conf_sum sid ctx + (if w.speaker_id = sid then w.confidence else 0) := by
  unfold conf_sum
  rw [List.filter_append, List.map_append, List.sum_append]
  congr 1
  by_cases h : w.speaker_id = sid
  · simp [h]
  · simp [h]

theorem count_occ_eq_zero (sid : Nat) (ctx : List WordInfo)
    (h : sid ∉ ctx.map (fun w => w.speaker_id)) : count_occ sid ctx = 0 := by
  unfold count_occ
  rw [List.length_eq_zero, List.filter_eq_nil_iff]
  intro w hw
  simp only [beq_iff_eq]
  intro e
  exact h (List.mem_map.mpr ⟨w, hw, e⟩)

theorem conf_sum_eq_zero (sid : Nat) (ctx : List WordInfo)
    (h : sid ∉ ctx.map (fun w => w.speaker_id)) : conf_sum sid ctx = 0 := by
  unfold conf_sum
  have : ctx.filter (fun w => w.speaker_id == sid) = [] := by
    rw [List.filter_eq_nil_iff]
    intro w hw
    simp only [beq_iff_eq]
    intro e
    exact h (List.mem_map.mpr ⟨w, hw, e⟩)
  rw [this]
  rfl

theorem add_vote_map_mem (g : Nat → Nat × ℚ) (cands : List Nat)
    (hnd : cands.Nodup) (k : Nat) (hk : k ∈ cands) (conf : ℚ) :
    add_vote (cands.map (fun s => (s, g s))) k conf =
      cands.map (fun s =>
        (s, if s = k then ((g s).1 + 1, (g s).2 + conf) else g s)) := by
  induction cands with
  | nil => cases hk
  | cons a rest ih =>
    by_cases hak : a = k
    · subst hak
      have hnr : a ∉ rest := (List.nodup_cons.mp hnd).1
      simp only [List.map_cons, add_vote, eq_self_iff_true, if_true]
      congr 1
      apply List.map_congr_left
      intro s hs
      have hne : s ≠ a := fun e => hnr (e ▸ hs)
      rw [if_neg hne]
    · have hk' : k ∈ rest := by
        rcases List.mem_cons.mp hk with e | e
        · exact absurd e.symm hak
        · exact e
      simp only [List.map_cons, add_vote, if_neg hak]
      rw [ih (List.Nodup.of_cons hnd) hk']

theorem add_vote_map_not_mem (g : Nat → Nat × ℚ) (cands : List Nat) (k : Nat)
    (hk : k ∉ cands) (conf : ℚ) :
    add_vote (cands.map (fun s => (s, g s))) k conf =
      cands.map (fun s => (s, g s)) ++ [(k, 1, conf)] := by
  induction cands with
  | nil => rfl
  | cons a rest ih =>
    have hak : a ≠ k := fun e => hk (by simp [e])
    have hrest : k ∉ rest := fun e => hk (List.mem_cons_of_mem a e)
    simp only [List.map_cons, add_vote, if_neg hak, List.cons_append]
    rw [ih hrest]

/-- The `speaker_votes` dict holds, for every distinct raw id of the context
in first-encountered order, exactly its occurrence count and the sum of the
confidences of its occurrences. -/
theorem speaker_votes_eq (ctx : List WordInfo) :
    speaker_votes ctx = (first_seen (ctx.map (fun w => w.speaker_id))).map
      (fun s => (s, count_occ s ctx, conf_sum s ctx)) := by
  induction ctx using List.reverseRecOn with
  | nil => rfl
  | append_singleton ctx w ih =>
    rw [speaker_votes_append, ih, List.map_append, List.map_singleton,
      first_seen_append_one]
    by_cases hmem : w.speaker_id ∈ first_seen (ctx.map (fun w => w.speaker_id))
    · rw [if_pos hmem]
      rw [add_vote_map_mem _ _ (first_seen_nodup _) _ hmem]
      apply List.map_congr_left
      intro s hs
      rw [count_occ_append, conf_sum_append]
      by_cases hsk : s = w.speaker_id
      · rw [if_pos hsk, if_pos hsk.symm, if_pos hsk.symm]
      · rw [if_neg hsk, if_neg (fun e => hsk e.symm), if_neg (fun e => hsk e.symm)]
        simp
    · rw [if_neg hmem]
      rw [add_vote_map_not_mem _ _ _ hmem, List.map_append, List.map_singleton]
      congr 1
      · apply List.map_congr_left
        intro s hs
        have hsk : w.speaker_id ≠ s := fun e => hmem (e ▸ hs)
        rw [count_occ_append, conf_sum_append, if_neg hsk, if_neg hsk]
        simp
      · have hne : w.speaker_id ∉ ctx.map (fun w => w.speaker_id) :=
          fun e => hmem ((mem_first_seen _ _).mpr e)
        rw [count_occ_append, conf_sum_append, if_pos rfl, if_pos rfl,
          count_occ_eq_zero _ _ hne, conf_sum_eq_zero _ _ hne]
        simp

/-- `vote_for_word` is the first-argmax fold of the per-candidate combined
score over the candidates in first-encountered order, seeded with the word's
own raw id at score 0. -/
theorem vote_for_word_eq_fold (scores : List (Nat × ℚ))
    (word_data : List WordInfo) (i : Nat) :
    vote_for_word scores word_data i =
      List.foldl (best_step (combined_of scores (context_window word_data i)))
        ((word_data.getD i default).speaker_id, 0)
        (first_seen ((context_window word_data i).map (fun w => w.speaker_id))) := by
  simp only [vote_for_word, select_best_speaker]
  rw [speaker_votes_eq, List.foldl_map]
  congr 1

theorem mem_of_lookup_eq_some {V : Type} {l : List (Nat × V)} {k : Nat} {v : V}
    (h : List.lookup k l = some v) : (k, v) ∈ l := by
  induction l with
  | nil => simp [List.lookup] at h
  | cons p rest ih =>
    obtain ⟨k', v'⟩ := p
    by_cases hk : k = k'
    · subst hk
      simp [List.lookup] at h
      simp [h]
    · simp only [List.lookup, beq_eq_false_iff_ne.mpr hk] at h
      exact List.mem_cons_of_mem _ (ih h)

/-- Every candidate of a nonempty context gets a strictly positive combined
score (confidences in `[0, 1]`, stored consistency scores nonnegative). -/
theorem combined_of_pos (scores : List (Nat × ℚ)) (ctx : List WordInfo) (s : Nat)
    (hs : s ∈ ctx.map (fun w => w.speaker_id))
    (hconf : ∀ w ∈ ctx, 0 ≤ w.confidence)
    (hsc : ∀ p ∈ scores, 0 ≤ p.2) :
    0 < combined_of scores ctx s := by
  obtain ⟨w, hw, hws⟩ := List.mem_map.mp hs
  have hcount : 0 < count_occ s ctx := by
    unfold count_occ
    exact List.length_pos_of_mem (List.mem_filter.mpr ⟨hw, by simp [hws]⟩)
  have hlen : 0 < ctx.length := List.length_pos_of_mem hw
  have hcs : 0 ≤ conf_sum s ctx := by
    unfold conf_sum
    apply List.sum_nonneg
    intro q hq
    obtain ⟨w', hw', rfl⟩ := List.mem_map.mp hq
    exact hconf w' (List.mem_of_mem_filter hw')
  have hhist : 0 ≤ get_speaker_consistency_score scores s := by
    unfold get_speaker_consistency_score
    cases hl : List.lookup s scores with
    | none => norm_num
    | some c => exact hsc (s, c) (mem_of_lookup_eq_some hl)
  unfold combined_of combined_score
  have h1 : 0 < ((count_occ s ctx : ℚ) / (ctx.length : ℚ)) * 0.4 := by
    apply mul_pos
    · exact div_pos (by exact_mod_cast hcount) (by exact_mod_cast hlen)
    · norm_num
  have h2 : 0 ≤ (if 0 < count_occ s ctx then conf_sum s ctx / (count_occ s ctx : ℚ)
      else 0) * 0.3 := by
    rw [if_pos hcount]
    apply mul_nonneg
    · exact div_nonneg hcs (Nat.cast_nonneg _)
    · norm_num
  have h3 : 0 ≤ get_speaker_consistency_score scores s * 0.3 :=
    mul_nonneg hhist (by norm_num)
  linarith

/-- A context window around an in-range index is nonempty. -/
theorem context_window_ne_nil (word_data : List WordInfo) (i : Nat)
    (hi : i < word_data.length) : context_window word_data i ≠ [] := by
  unfold context_window
  intro hcon
  have := congrArg List.length hcon
  rw [List.length_drop, List.length_take] at this
  simp at this
  omega

/-- C5: for every in-range word, with input confidences in `[0, 1]` and
nonnegative stored consistency scores, the vote selects a candidate from the
context's distinct raw ids (in first-encountered order) whose combined score
`0.4·count/ctx_size + 0.3·mean_confidence + 0.3·consistency` strictly
exceeds every earlier candidate's (tie-break to the first encountered) and
is at least every later candidate's (maximality), and the word's
`validation_confidence` is exactly that maximal combined score. -/
theorem C5_theorem (scores : List (Nat × ℚ)) (word_data : List WordInfo)
    (i : Nat) (hi : i < word_data.length)
    (hconf : ∀ w ∈ word_data, 0 ≤ w.confidence)
    (hsc : ∀ p ∈ scores, 0 ≤ p.2) :
    ∃ l1 l2,
      first_seen ((context_window word_data i).map (fun w => w.speaker_id)) =
        l1 ++ (vote_for_word scores word_data i).1 :: l2 ∧
      (vote_for_word scores word_data i).2 =
        combined_of scores (context_window word_data i)
          (vote_for_word scores word_data i).1 ∧
      (∀ s ∈ l1, combined_of scores (context_window word_data i) s <
        (vote_for_word scores word_data i).2) ∧
      (∀ s ∈ l2, combined_of scores (context_window word_data i) s ≤
        (vote_for_word scores word_data i).2) := by
  have hconf' : ∀ w ∈ context_window word_data i, 0 ≤ w.confidence := by
    intro w hw
    unfold context_window at hw
    exact hconf w (List.mem_of_mem_take (List.mem_of_mem_drop hw))
  have hne := context_window_ne_nil word_data i hi
  obtain ⟨w0, hw0⟩ := List.exists_mem_of_ne_nil _ hne
  have hpos : ∀ s ∈ first_seen ((context_window word_data i).map
      (fun w => w.speaker_id)), 0 < combined_of scores (context_window word_data i) s := by
    intro s hs
    exact combined_of_pos scores _ s ((mem_first_seen _ _).mp hs) hconf' hsc
  rw [vote_for_word_eq_fold]
  rcases best_fold_spec (combined_of scores (context_window word_data i))
      (first_seen ((context_window word_data i).map (fun w => w.speaker_id)))
      ((word_data.getD i default).speaker_id) 0 with ⟨heq, hall⟩ |
      ⟨l1, l2, hdec, hv, hgt, hl1, hl2⟩
  · exfalso
    have hm : w0.speaker_id ∈ first_seen ((context_window word_data i).map
        (fun w => w.speaker_id)) :=
      (mem_first_seen _ _).mpr (List.mem_map.mpr ⟨w0, hw0, rfl⟩)
    exact absurd (hall _ hm) (not_le.mpr (hpos _ hm))
  · exact ⟨l1, l2, hdec, hv, hl1, hl2⟩

/-- Witness for `C5_theorem` at `c3_words`, index 1 (both words in context;
candidates `[0, 1]`; speaker 1 wins with combined score 0.62). -/
theorem C5_witness :
    ∃ l1 l2,
      first_seen ((context_window c3_words 1).map (fun w => w.speaker_id)) =
        l1 ++ (vote_for_word [] c3_words 1).1 :: l2 ∧
      (vote_for_word [] c3_words 1).2 =
        combined_of [] (context_window c3_words 1)
          (vote_for_word [] c3_words 1).1 ∧
      (∀ s ∈ l1, combined_of [] (context_window c3_words 1) s <
        (vote_for_word [] c3_words 1).2) ∧
      (∀ s ∈ l2, combined_of [] (context_window c3_words 1) s ≤
        (vote_for_word [] c3_words 1).2) :=
  C5_theorem [] c3_words 1 (by decide)
    (by with_unfolding_all decide) (by decide)

/-! ## Claim C6 — amended theorem -/

/-- The raw speaker ids inspected by `_find_contextual_speaker` around
`word_index`: indices `max(0, i-2) .. min(len, i+3)-1` excluding `i`
itself, in order. -/
def context_ids (word_data : List WordInfo) (word_index : Nat) : List Nat :=
  ((List.range' (word_index - 2)
      (min (word_index + 2 + 1) word_data.length - (word_index - 2))).filter
    (fun j => j != word_index)).map
    (fun j => (word_data.getD j default).speaker_id)

/-- Number of occurrences of `s` in a list of raw ids. -/
def count_in (ids : List Nat) (s : Nat) : Nat :=
  (ids.filter (fun x => x == s)).length

theorem speaker_counts_eq_fold (word_data : List WordInfo) (i : Nat) :
    speaker_counts word_data i (i - 2) (min (i + 2 + 1) word_data.length) =
      (context_ids word_data i).foldl add_count [] := by
  unfold speaker_counts context_ids
  rw [List.foldl_map]

theorem count_in_append (l : List Nat) (a s : Nat) :
    count_in (l ++ [a]) s = count_in l s + (if a = s then 1 else 0) := by
  unfold count_in
  rw [List.filter_append, List.length_append]
  congr 1
  by_cases h : a = s
  · simp [h]
  · simp [h]

theorem count_in_eq_zero (l : List Nat) (s : Nat) (h : s ∉ l) :
    count_in l s = 0 := by
  unfold count_in
  rw [List.length_eq_zero, List.filter_eq_nil_iff]
  intro x hx
  simp only [beq_iff_eq]
  intro e
  exact h (e ▸ hx)

theorem add_count_map_mem (g : Nat → Nat) (cands : List Nat)
    (hnd : cands.Nodup) (k : Nat) (hk : k ∈ cands) :
    add_count (cands.map (fun s => (s, g s))) k =
      cands.map (fun s => (s, if s = k then g s + 1 else g s)) := by
  induction cands with
  | nil => cases hk
  | cons a rest ih =>
    by_cases hak : a = k
    · subst hak
      have hnr : a ∉ rest := (List.nodup_cons.mp hnd).1
      simp only [List.map_cons, add_count, eq_self_iff_true, if_true]
      congr 1
      apply List.map_congr_left
      intro s hs
      have hne : s ≠ a := fun e => hnr (e ▸ hs)
      rw [if_neg hne]
    · have hk' : k ∈ rest := by
        rcases List.mem_cons.mp hk with e | e
        · exact absurd e.symm hak
        · exact e
      simp only [List.map_cons, add_count, if_neg hak]
      rw [ih (List.Nodup.of_cons hnd) hk']

theorem add_count_map_not_mem (g : Nat → Nat) (cands : List Nat) (k : Nat)
    (hk : k ∉ cands) :
    add_count (cands.map (fun s => (s, g s))) k =
      cands.map (fun s => (s, g s)) ++ [(k, 1)] := by
  induction cands with
  | nil => rfl
  | cons a rest ih =>
    have hak : a ≠ k := fun e => hk (by simp [e])
    have hrest : k ∉ rest := fun e => hk (List.mem_cons_of_mem a e)
    simp only [List.map_cons, add_count, if_neg hak, List.cons_append]
    rw [ih hrest]

/-- The `speaker_counts` dict holds, for every distinct id of the inspected
window in first-encountered order, exactly its occurrence count. -/
theorem tally_counts_eq (ids : List Nat) :
    ids.foldl add_count [] =
      (first_seen ids).map (fun s => (s, count_in ids s)) := by
  induction ids using List.reverseRecOn with
  | nil => rfl
  | append_singleton l a ih =>
    rw [List.foldl_append, List.foldl_cons, List.foldl_nil, ih,
      first_seen_append_one]
    by_cases hmem : a ∈ first_seen l
    · rw [if_pos hmem]
      rw [add_count_map_mem _ _ (first_seen_nodup _) _ hmem]
      apply List.map_congr_left
      intro s hs
      rw [count_in_append]
      by_cases hsk : s = a
      · rw [if_pos hsk, if_pos hsk.symm]
      · rw [if_neg hsk, if_neg (fun e => hsk e.symm)]
        simp
    · rw [if_neg hmem]
      rw [add_count_map_not_mem _ _ _ hmem, List.map_append, List.map_singleton]
      congr 1
      · apply List.map_congr_left
        intro s hs
        have hsk : a ≠ s := fun e => hmem (e ▸ hs)
        rw [count_in_append, if_neg hsk]
        simp
      · have hne : a ∉ l := fun e => hmem ((mem_first_seen _ _).mpr e)
        rw [count_in_append, if_pos rfl, count_in_eq_zero _ _ hne]

theorem max_by_count_cons (x : Nat × Nat) (xs : List (Nat × Nat)) :
    max_by_count (x :: xs) =
      some ((xs.foldl (fun b y => if y.2 > b.2 then y else b) x).1) := rfl

/-- `max(speaker_counts, key=speaker_counts.get)` on a nonempty id list:
the result is a distinct id of the window that strictly beats every
earlier distinct id and is at least every later one. -/
theorem max_by_count_spec (ids : List Nat) (h : ids ≠ []) :
    ∃ r l1 l2, max_by_count (ids.foldl add_count []) = some r ∧
      first_seen ids = l1 ++ r :: l2 ∧
      (∀ s ∈ l1, count_in ids s < count_in ids r) ∧
      (∀ s ∈ l2, count_in ids s ≤ count_in ids r) := by
  obtain ⟨x, hx⟩ := List.exists_mem_of_ne_nil _ h
  have hxf : x ∈ first_seen ids := (mem_first_seen _ _).mpr hx
  rcases hfs : first_seen ids with _ | ⟨c, rest⟩
  · rw [hfs] at hxf
    cases hxf
  · have hm : max_by_count (ids.foldl add_count []) =
        some (List.foldl (best_step (fun s => count_in ids s))
          (c, count_in ids c) rest).1 := by
      rw [tally_counts_eq, hfs, List.map_cons, max_by_count_cons, List.foldl_map]
      rfl
    rcases best_fold_spec (fun s => count_in ids s) rest c (count_in ids c) with
      ⟨heq, hall⟩ | ⟨l1, l2, hdec, hv, hgt, hl1, hl2⟩
    · refine ⟨c, [], rest, ?_, rfl, by simp, ?_⟩
      · rw [hm, heq]
      · intro s hs
        exact hall s hs
    · refine ⟨(List.foldl (best_step (fun s => count_in ids s))
          (c, count_in ids c) rest).1, c :: l1, l2, hm, ?_, ?_, ?_⟩
      · conv_lhs => rw [hdec]
        rw [List.cons_append]
      · intro s hs
        rcases List.mem_cons.mp hs with e | e
        · rw [e, ← hv]
          exact hgt
        · have := hl1 s e
          rw [hv] at this
          exact this
      · intro s hs
        have := hl2 s hs
        rw [hv] at this
        exact this

/-- When the inspected window is empty (a one-word batch), the fallback
`self.last_speaker_id or 0` is returned. -/
theorem find_contextual_empty (word_data : List WordInfo) (i : Nat)
    (last : Option Nat) (h : context_ids word_data i = []) :
    find_contextual_speaker i word_data last = last_or last 0 := by
  unfold find_contextual_speaker
  rw [speaker_counts_eq_fold, h]
  rfl

/-- C6: for every word on which the rapid-switch guard did not fire, whose
proposed speaker has a timing profile, and whose duration is below 10% of
that profile's average, the final assignment is `_find_contextual_speaker`'s
answer: the raw id with the maximal occurrence count in the ±2-word window
excluding the current word, ties broken in favour of the id FIRST
encountered in that window (not the last confirmed speaker, which is used
only when the window is empty, as `last_speaker_id or 0`). -/
theorem C6_theorem (last : Option Nat) (timings : List (Nat × TimingProfile))
    (word_data : List WordInfo) (i : Nat) (prof : TimingProfile) (proposed : Nat)
    (hrapid : ¬ (0 < i ∧
      (word_data.getD i default).start_time -
        (word_data.getD (i - 1) default).end_time < max_rapid_switch_time ∧
      (word_data.getD i default).duration < min_segment_duration ∧
      would_create_short_segment proposed i word_data = true))
    (hprof : List.lookup proposed timings = some prof)
    (hdur : (word_data.getD i default).duration < prof.avg_duration * 0.1) :
    apply_temporal_validation last timings proposed i word_data =
      find_contextual_speaker i word_data last ∧
    (context_ids word_data i = [] →
      find_contextual_speaker i word_data last = last_or last 0) ∧
    (context_ids word_data i ≠ [] →
      ∃ l1 l2,
        first_seen (context_ids word_data i) =
          l1 ++ (find_contextual_speaker i word_data last) :: l2 ∧
        (∀ s ∈ l1, count_in (context_ids word_data i) s <
          count_in (context_ids word_data i)
            (find_contextual_speaker i word_data last)) ∧
        (∀ s ∈ l2, count_in (context_ids word_data i) s ≤
          count_in (context_ids word_data i)
            (find_contextual_speaker i word_data last))) := by
  refine ⟨?_, ?_, ?_⟩
  · unfold apply_temporal_validation
    rw [if_neg hrapid, hprof]
    exact if_pos hdur
  · exact find_contextual_empty word_data i last
  · intro hne
    obtain ⟨r, l1, l2, hmax, hdec, hl1, hl2⟩ :=
      max_by_count_spec (context_ids word_data i) hne
    have hfind : find_contextual_speaker i word_data last = r := by
      unfold find_contextual_speaker
      rw [speaker_counts_eq_fold, hmax]
    rw [hfind]
    exact ⟨l1, l2, hdec, hl1, hl2⟩

/-- Witness for `C6_theorem` at the `c6_words` scenario: the assignment is
`_find_contextual_speaker`'s answer, and the window `[2, 3]` decomposes with
speaker 2 first. -/
theorem C6_witness :
    (apply_temporal_validation (some 5) c6_timings 1 1 c6_words =
      find_contextual_speaker 1 c6_words (some 5) ∧
    (context_ids c6_words 1 = [] →
      find_contextual_speaker 1 c6_words (some 5) = last_or (some 5) 0) ∧
    (context_ids c6_words 1 ≠ [] →
      ∃ l1 l2,
        first_seen (context_ids c6_words 1) =
          l1 ++ (find_contextual_speaker 1 c6_words (some 5)) :: l2 ∧
        (∀ s ∈ l1, count_in (context_ids c6_words 1) s <
          count_in (context_ids c6_words 1)
            (find_contextual_speaker 1 c6_words (some 5))) ∧
        (∀ s ∈ l2, count_in (context_ids c6_words 1) s ≤
          count_in (context_ids c6_words 1)
            (find_contextual_speaker 1 c6_words (some 5))))) ∧
    find_contextual_speaker 1 c6_words (some 5) = 2 :=
  ⟨C6_theorem (some 5) c6_timings c6_words 1 ⟨10, 1⟩ 1
      (by with_unfolding_all decide) (by with_unfolding_all decide)
      (by with_unfolding_all decide),
    by with_unfolding_all decide⟩
